import Mathlib

/-!
Verification development for the backend's adaptive-caching layer.

The Lean definitions below are shallow embeddings of the JavaScript
modules `src/utils/adaptiveCache.js`, `src/utils/redisPool.js`,
`src/utils/jwtUtils.js` and the Redis cache utility module
(`getCache`/`setCache`/`clearCachePattern`/`withCache`).
JavaScript numbers are modelled as rationals (`ℚ`) where fractional
multipliers occur, and as `Nat`/`Int` for counters, sizes and
timestamps.  JSON values are modelled by an explicit inductive type
with an executable serializer and parser (JSON numbers restricted to
integers).  Time is an explicit `Nat` parameter (milliseconds or
seconds, matching each source site).
-/

namespace AdaptiveCache

/-- Per-key cache statistics, mirroring the entries of
`cacheStats.keys` in `adaptiveCache.js` (`{hits, misses, sets}`). -/
structure KeyStats where
  hits : Nat
  misses : Nat
  sets : Nat
deriving DecidableEq, Repr

/-- The cache configuration object, mirroring `DEFAULT_CACHE_SETTINGS`
in `adaptiveCache.js`.  All fields are JavaScript numbers, modelled as
rationals. -/
structure CacheConfig where
  authTokenTTL : ℚ
  loginResultTTL : ℚ
  userProfileTTL : ℚ
  queryResultTTL : ℚ
  countQueryTTL : ℚ
  aggregationTTL : ℚ
  staticDataTTL : ℚ
  dynamicDataTTL : ℚ
  cacheHitMultiplier : ℚ
  cacheMissMultiplier : ℚ
  maxTTLMultiplier : ℚ
  minTTLMultiplier : ℚ
  systemLoadFactor : ℚ
deriving DecidableEq, Repr

/-- Model of `DEFAULT_CACHE_SETTINGS` from `adaptiveCache.js`. -/
def DEFAULT_CACHE_SETTINGS : CacheConfig where
  authTokenTTL := 24 * 60 * 60
  loginResultTTL := 600
  userProfileTTL := 1800
  queryResultTTL := 300
  countQueryTTL := 600
  aggregationTTL := 900
  staticDataTTL := 3600
  dynamicDataTTL := 120
  cacheHitMultiplier := 105 / 100
  cacheMissMultiplier := 95 / 100
  maxTTLMultiplier := 3
  minTTLMultiplier := 1 / 2
  systemLoadFactor := 8 / 10

/-- Model of `Math.round` on a JavaScript number: round half toward positive
infinity. -/
def jsRound (q : ℚ) : ℤ := ⌊q + 1 / 2⌋

/-- The load factor computed in `adjustCacheSettings` from the
normalized 1-minute load average (`systemLoad > 0.8 ? 0.5 :
systemLoad > 0.5 ? 0.75 : 1.0`). -/
def loadFactor (systemLoad : ℚ) : ℚ :=
  if systemLoad > 8 / 10 then 1 / 2
  else if systemLoad > 1 / 2 then 3 / 4
  else 1

/-- The hit-rate factor computed in `adjustCacheSettings` from the
global hit rate (`hitRate > 0.8 ? 1.1 : hitRate > 0.5 ? 1.0 : 0.9`). -/
def hitRateFactor (hitRate : ℚ) : ℚ :=
  if hitRate > 8 / 10 then 11 / 10
  else if hitRate > 1 / 2 then 1
  else 9 / 10

/-- One TTL-valued entry of the config as adjusted by
`adjustCacheSettings`: `adjusted = value * loadFactor * hitRateFactor`
clamped to `[value * minTTLMultiplier, value * maxTTLMultiplier]`,
where the multipliers are read from `DEFAULT_CACHE_SETTINGS`
(`Math.min(Math.max(adjustedValue, minValue), maxValue)`). -/
def adjustValue (lf hrf value : ℚ) : ℚ :=
  min (max (value * lf * hrf) (value * DEFAULT_CACHE_SETTINGS.minTTLMultiplier))
    (value * DEFAULT_CACHE_SETTINGS.maxTTLMultiplier)

/-- Model of `adjustCacheSettings` from `adaptiveCache.js`: every key of the
config whose lowercased name contains `'ttl'` is adjusted.  This is
the eight `…TTL` fields and also `maxTTLMultiplier` and
`minTTLMultiplier` (their lowercased names contain `'ttl'`);
`cacheHitMultiplier`, `cacheMissMultiplier` and `systemLoadFactor`
are left unchanged. -/
def adjustCacheSettings (lf hrf : ℚ) (c : CacheConfig) : CacheConfig where
  authTokenTTL := adjustValue lf hrf c.authTokenTTL
  loginResultTTL := adjustValue lf hrf c.loginResultTTL
  userProfileTTL := adjustValue lf hrf c.userProfileTTL
  queryResultTTL := adjustValue lf hrf c.queryResultTTL
  countQueryTTL := adjustValue lf hrf c.countQueryTTL
  aggregationTTL := adjustValue lf hrf c.aggregationTTL
  staticDataTTL := adjustValue lf hrf c.staticDataTTL
  dynamicDataTTL := adjustValue lf hrf c.dynamicDataTTL
  cacheHitMultiplier := c.cacheHitMultiplier
  cacheMissMultiplier := c.cacheMissMultiplier
  maxTTLMultiplier := adjustValue lf hrf c.maxTTLMultiplier
  minTTLMultiplier := adjustValue lf hrf c.minTTLMultiplier
  systemLoadFactor := c.systemLoadFactor

/-- The `switch (type)` in `getOptimalTTL` selecting the base TTL for
a cache category, defaulting to 300 seconds for an unrecognized
category. -/
def baseTTLFor (type : String) (c : CacheConfig) : ℚ :=
  if type = "auth:token" then c.authTokenTTL
  else if type = "auth:login" then c.loginResultTTL
  else if type = "user:profile" then c.userProfileTTL
  else if type = "query:result" then c.queryResultTTL
  else if type = "query:count" then c.countQueryTTL
  else if type = "query:aggregation" then c.aggregationTTL
  else if type = "data:static" then c.staticDataTTL
  else if type = "data:dynamic" then c.dynamicDataTTL
  else 300

/-- Model of `getOptimalTTL` from `adaptiveCache.js`.  `config` is the value
read back from the config cache key (or the defaults on a miss);
`stats` is `cacheStats.keys[key]` (`none` when the key has no recorded
statistics).  When the key has at least one recorded access, a hit
rate above 0.8 multiplies the base TTL by `cacheHitMultiplier` and a
hit rate below 0.3 multiplies it by `cacheMissMultiplier`; the result
is `Math.round`ed. -/
def getOptimalTTL (config : CacheConfig) (stats : Option KeyStats) (type : String) : ℤ :=
  let baseTTL := baseTTLFor type config
  let adjusted :=
    match stats with
    | none => baseTTL
    | some ks =>
      let totalAccesses := ks.hits + ks.misses
      if totalAccesses > 0 then
        let keyHitRate : ℚ := (ks.hits : ℚ) / (totalAccesses : ℚ)
        if keyHitRate > 8 / 10 then baseTTL * config.cacheHitMultiplier
        else if keyHitRate < 3 / 10 then baseTTL * config.cacheMissMultiplier
        else baseTTL
      else baseTTL
  jsRound adjusted

lemma jsRound_mono {x y : ℚ} (h : x ≤ y) : jsRound x ≤ jsRound y :=
  Int.floor_mono (by linarith)

lemma jsRound_add_six_le {x y : ℚ} (h : x + 6 ≤ y) : jsRound x + 6 ≤ jsRound y := by
  have h6 : jsRound x + 6 = ⌊x + 1 / 2 + ((6 : ℤ) : ℚ)⌋ := by
    rw [Int.floor_add_int]; rfl
  rw [h6]
  exact Int.floor_mono (by push_cast; linarith)

lemma adjustValue_bounds (lf hrf v : ℚ) (hv : 0 ≤ v) :
    v * (1 / 2) ≤ adjustValue lf hrf v ∧ adjustValue lf hrf v ≤ v * 3 := by
  unfold adjustValue
  constructor
  · refine le_min (le_max_right _ _) ?_
    show v * (1 / 2) ≤ v * DEFAULT_CACHE_SETTINGS.maxTTLMultiplier
    have : DEFAULT_CACHE_SETTINGS.maxTTLMultiplier = 3 := rfl
    rw [this]; nlinarith
  · exact min_le_right _ _

lemma adjustValue_ge_sixty (lf hrf v : ℚ) (hv : 120 ≤ v) :
    v * (1 / 2) ≤ adjustValue lf hrf v ∧ adjustValue lf hrf v ≤ v * 3
    ∧ 60 ≤ adjustValue lf hrf v := by
  obtain ⟨hlo, hhi⟩ := adjustValue_bounds lf hrf v (by linarith)
  exact ⟨hlo, hhi, by linarith⟩

/-- Bounds on the base TTL that `getOptimalTTL` looks up from a config
produced by one `adjustCacheSettings` pass over the defaults: it stays
within the clamp interval of the corresponding default base TTL (the
unrecognized-category default 300 is not an adjusted config field and
is returned unchanged), and is always at least 60. -/
lemma baseTTLFor_adjust_bounds (lf hrf : ℚ) (type : String) :
    baseTTLFor type DEFAULT_CACHE_SETTINGS * (1 / 2)
      ≤ baseTTLFor type (adjustCacheSettings lf hrf DEFAULT_CACHE_SETTINGS)
    ∧ baseTTLFor type (adjustCacheSettings lf hrf DEFAULT_CACHE_SETTINGS)
      ≤ baseTTLFor type DEFAULT_CACHE_SETTINGS * 3
    ∧ 60 ≤ baseTTLFor type (adjustCacheSettings lf hrf DEFAULT_CACHE_SETTINGS) := by
  unfold baseTTLFor adjustCacheSettings
  split_ifs <;>
    first
      | exact adjustValue_ge_sixty lf hrf _ (by norm_num [DEFAULT_CACHE_SETTINGS])
      | norm_num

/-- The per-key adjustment in `getOptimalTTL` yields one of three values:
the base TTL itself, or the base TTL scaled by the hit or miss
multiplier of the config. -/
lemma getOptimalTTL_cases (c : CacheConfig) (stats : Option KeyStats) (type : String) :
    getOptimalTTL c stats type = jsRound (baseTTLFor type c)
    ∨ getOptimalTTL c stats type = jsRound (baseTTLFor type c * c.cacheHitMultiplier)
    ∨ getOptimalTTL c stats type = jsRound (baseTTLFor type c * c.cacheMissMultiplier) := by
  unfold getOptimalTTL
  cases stats with
  | none => exact Or.inl rfl
  | some ks => dsimp only; split_ifs <;> tauto

lemma baseTTLFor_default_ge (type : String) :
    120 ≤ baseTTLFor type DEFAULT_CACHE_SETTINGS := by
  unfold baseTTLFor
  split_ifs <;> norm_num [DEFAULT_CACHE_SETTINGS]

/-- Claim C1 (counterexample): for the category `auth:login` (base TTL
600), system load 1 (load factor 0.5), global hit rate 0 (hit-rate
factor 0.9) and per-key statistics with hit rate 0.1, `getOptimalTTL`
returns 285, which is strictly below `base * minTTLMultiplier = 300`:
the per-key miss multiplier is applied after the clamp, so the claimed
lower bound fails. -/
theorem C1_ttl_bounds_counterexample :
    getOptimalTTL
        (adjustCacheSettings (loadFactor 1) (hitRateFactor 0) DEFAULT_CACHE_SETTINGS)
        (some ⟨1, 9, 0⟩) "auth:login" = 285
    ∧ ((285 : ℚ)
        < DEFAULT_CACHE_SETTINGS.loginResultTTL * DEFAULT_CACHE_SETTINGS.minTTLMultiplier) := by
  constructor
  · have hne : ("auth:login" : String) ≠ "auth:token" := by decide
    norm_num [getOptimalTTL, baseTTLFor, adjustCacheSettings, adjustValue, loadFactor,
      hitRateFactor, DEFAULT_CACHE_SETTINGS, jsRound, hne]
  · norm_num [DEFAULT_CACHE_SETTINGS]

/-- Claim C1 (amended): for every category, system load and hit-rate
statistics, `getOptimalTTL` on a config produced by one
`adjustCacheSettings` pass over the defaults lies within the clamp
interval stretched by the per-key multipliers and rounded:
`[round(base * minTTLMultiplier * cacheMissMultiplier),
round(base * maxTTLMultiplier * cacheHitMultiplier)]`, i.e.
`[round(0.475 * base), round(3.15 * base)]`. -/
theorem C1_ttl_bounds_amended (sl hr : ℚ) (stats : Option KeyStats) (type : String) :
    jsRound (baseTTLFor type DEFAULT_CACHE_SETTINGS * (1 / 2) * (95 / 100))
      ≤ getOptimalTTL (adjustCacheSettings (loadFactor sl) (hitRateFactor hr)
          DEFAULT_CACHE_SETTINGS) stats type
    ∧ getOptimalTTL (adjustCacheSettings (loadFactor sl) (hitRateFactor hr)
          DEFAULT_CACHE_SETTINGS) stats type
      ≤ jsRound (baseTTLFor type DEFAULT_CACHE_SETTINGS * 3 * (105 / 100)) := by
  obtain ⟨hlo, hhi, h60⟩ := baseTTLFor_adjust_bounds (loadFactor sl) (hitRateFactor hr) type
  have hv : (120 : ℚ) ≤ baseTTLFor type DEFAULT_CACHE_SETTINGS := baseTTLFor_default_ge type
  have hmulHit : (adjustCacheSettings (loadFactor sl) (hitRateFactor hr)
      DEFAULT_CACHE_SETTINGS).cacheHitMultiplier = 105 / 100 := rfl
  have hmulMiss : (adjustCacheSettings (loadFactor sl) (hitRateFactor hr)
      DEFAULT_CACHE_SETTINGS).cacheMissMultiplier = 95 / 100 := rfl
  rcases getOptimalTTL_cases
      (adjustCacheSettings (loadFactor sl) (hitRateFactor hr) DEFAULT_CACHE_SETTINGS)
      stats type with h | h | h
  · rw [h]; exact ⟨jsRound_mono (by nlinarith), jsRound_mono (by nlinarith)⟩
  · rw [h, hmulHit]; exact ⟨jsRound_mono (by nlinarith), jsRound_mono (by nlinarith)⟩
  · rw [h, hmulMiss]; exact ⟨jsRound_mono (by nlinarith), jsRound_mono (by nlinarith)⟩

/-- Claim C9: with the same category and the same adjusted config, a
key whose recorded hit rate is 0.9 gets a strictly larger optimal TTL
than a key whose recorded hit rate is 0.1 (both having at least one
recorded access). -/
theorem C9_hit_rate_monotonicity (type : String) (sl hr : ℚ) (s1 s2 : KeyStats)
    (h1 : 0 < s1.hits + s1.misses) (h2 : 0 < s2.hits + s2.misses)
    (hrate1 : (s1.hits : ℚ) / ((s1.hits + s1.misses : Nat) : ℚ) = 9 / 10)
    (hrate2 : (s2.hits : ℚ) / ((s2.hits + s2.misses : Nat) : ℚ) = 1 / 10) :
    getOptimalTTL (adjustCacheSettings (loadFactor sl) (hitRateFactor hr)
        DEFAULT_CACHE_SETTINGS) (some s2) type
      < getOptimalTTL (adjustCacheSettings (loadFactor sl) (hitRateFactor hr)
          DEFAULT_CACHE_SETTINGS) (some s1) type := by
  obtain ⟨hlo, hhi, h60⟩ := baseTTLFor_adjust_bounds (loadFactor sl) (hitRateFactor hr) type
  have e1 : getOptimalTTL (adjustCacheSettings (loadFactor sl) (hitRateFactor hr)
      DEFAULT_CACHE_SETTINGS) (some s1) type
      = jsRound (baseTTLFor type (adjustCacheSettings (loadFactor sl) (hitRateFactor hr)
          DEFAULT_CACHE_SETTINGS) * (105 / 100)) := by
    unfold getOptimalTTL
    dsimp only
    rw [if_pos h1, hrate1, if_pos (by norm_num : (9 : ℚ) / 10 > 8 / 10)]
    rfl
  have e2 : getOptimalTTL (adjustCacheSettings (loadFactor sl) (hitRateFactor hr)
      DEFAULT_CACHE_SETTINGS) (some s2) type
      = jsRound (baseTTLFor type (adjustCacheSettings (loadFactor sl) (hitRateFactor hr)
          DEFAULT_CACHE_SETTINGS) * (95 / 100)) := by
    unfold getOptimalTTL
    dsimp only
    rw [if_pos h2, hrate2, if_neg (by norm_num : ¬ ((1 : ℚ) / 10 > 8 / 10)),
      if_pos (by norm_num : (1 : ℚ) / 10 < 3 / 10)]
    rfl
  rw [e1, e2]
  have hstep : jsRound (baseTTLFor type (adjustCacheSettings (loadFactor sl)
          (hitRateFactor hr) DEFAULT_CACHE_SETTINGS) * (95 / 100)) + 6
      ≤ jsRound (baseTTLFor type (adjustCacheSettings (loadFactor sl)
          (hitRateFactor hr) DEFAULT_CACHE_SETTINGS) * (105 / 100)) := by
    apply jsRound_add_six_le
    nlinarith [h60]
  omega

/-- Witness for C9 at concrete inputs: category `query:result`, zero
load and zero global hit rate, statistics `{hits 9, misses 1}` versus
`{hits 1, misses 9}`. -/
theorem C9_hit_rate_monotonicity_witness :
    getOptimalTTL (adjustCacheSettings (loadFactor 0) (hitRateFactor 0)
        DEFAULT_CACHE_SETTINGS) (some ⟨1, 9, 0⟩) "query:result"
      < getOptimalTTL (adjustCacheSettings (loadFactor 0) (hitRateFactor 0)
          DEFAULT_CACHE_SETTINGS) (some ⟨9, 1, 0⟩) "query:result" :=
  C9_hit_rate_monotonicity "query:result" 0 0 ⟨9, 1, 0⟩ ⟨1, 9, 0⟩
    (by norm_num) (by norm_num) (by norm_num) (by norm_num)

end AdaptiveCache

namespace CacheUtils

/-- JSON values, the domain of `JSON.stringify`/`JSON.parse` as used by
the cache utility module (JSON numbers restricted to integers; JS
floating-point fractions are outside this model). -/
inductive JsonValue where
  | jnull : JsonValue
  | jbool : Bool → JsonValue
  | jnum : Int → JsonValue
  | jstr : List Char → JsonValue
  | jarr : List JsonValue → JsonValue
  | jobj : List (List Char × JsonValue) → JsonValue
deriving Repr

/-- JavaScript truthiness of a parsed JSON value (`if (v)`). -/
def jsTruthy : JsonValue → Bool
  | .jnull => false
  | .jbool b => b
  | .jnum n => !(n == 0)
  | .jstr s => !s.isEmpty
  | .jarr _ => true
  | .jobj _ => true

/-- Decimal digit to character. -/
def digitChar (d : Nat) : Char :=
  if d = 0 then '0' else if d = 1 then '1' else if d = 2 then '2'
  else if d = 3 then '3' else if d = 4 then '4' else if d = 5 then '5'
  else if d = 6 then '6' else if d = 7 then '7' else if d = 8 then '8'
  else '9'

/-- Hexadecimal digit to character (lowercase). -/
def hexChar (d : Nat) : Char :=
  if d < 10 then digitChar d
  else if d = 10 then 'a' else if d = 11 then 'b' else if d = 12 then 'c'
  else if d = 13 then 'd' else if d = 14 then 'e' else 'f'

def isDigitChar (c : Char) : Bool := '0' ≤ c && c ≤ '9'

def digitVal (c : Char) : Nat := c.toNat - 48

/-- Value of a hexadecimal digit character. -/
def hexVal (c : Char) : Option Nat :=
  if '0' ≤ c && c ≤ '9' then some (c.toNat - 48)
  else if 'a' ≤ c && c ≤ 'f' then some (c.toNat - 87)
  else if 'A' ≤ c && c ≤ 'F' then some (c.toNat - 55)
  else none

/-- Decimal representation of a natural number (fuel-based long
division; `fuel > n` suffices). -/
def natToCharsAux : Nat → Nat → List Char → List Char
  | 0, _, acc => acc
  | fuel + 1, n, acc =>
    if n < 10 then digitChar n :: acc
    else natToCharsAux fuel (n / 10) (digitChar (n % 10) :: acc)

def natToChars (n : Nat) : List Char := natToCharsAux (n + 1) n []

/-- Greedy decimal-digit scan, accumulating the numeric value. -/
def parseDigitsAux : Nat → List Char → Nat × List Char
  | acc, [] => (acc, [])
  | acc, c :: cs =>
    if isDigitChar c then parseDigitsAux (acc * 10 + digitVal c) cs
    else (acc, c :: cs)

/-- Model of `JSON.stringify` escaping of one string character: `"` and `\` get
a backslash escape, control characters an `\u00XX` escape, everything
else is copied verbatim. -/
def escapeChar (c : Char) : List Char :=
  if c = '"' then ['\\', '"']
  else if c = '\\' then ['\\', '\\']
  else if c.toNat < 32 then
    ['\\', 'u', '0', '0', hexChar (c.toNat / 16), hexChar (c.toNat % 16)]
  else [c]

def escapeList : List Char → List Char
  | [] => []
  | c :: cs => escapeChar c ++ escapeList cs

mutual

/-- Model of `JSON.stringify` on the JSON model. -/
def jsonStringify : JsonValue → List Char
  | .jnull => ['n', 'u', 'l', 'l']
  | .jbool true => ['t', 'r', 'u', 'e']
  | .jbool false => ['f', 'a', 'l', 's', 'e']
  | .jnum n => if n < 0 then '-' :: natToChars n.natAbs else natToChars n.toNat
  | .jstr s => '"' :: (escapeList s ++ ['"'])
  | .jarr [] => ['[', ']']
  | .jarr (x :: xs) => '[' :: (jsonStringify x ++ (stringifyItems xs ++ [']']))
  | .jobj [] => ['\x7b', '\x7d']
  | .jobj (f :: fs) => '\x7b' :: (stringifyField f ++ (stringifyFields fs ++ ['\x7d']))

def stringifyItems : List JsonValue → List Char
  | [] => []
  | x :: xs => ',' :: (jsonStringify x ++ stringifyItems xs)

def stringifyField : List Char × JsonValue → List Char
  | (k, v) => '"' :: (escapeList k ++ ('"' :: (':' :: jsonStringify v)))

def stringifyFields : List (List Char × JsonValue) → List Char
  | [] => []
  | f :: fs => ',' :: (stringifyField f ++ stringifyFields fs)

end

/-- String-body parser: consumes up to and including the closing
quote, handling backslash escapes (as `JSON.parse` does). -/
def parseStrAux : List Char → Option (List Char × List Char)
  | [] => none
  | c :: rest =>
    if c = '"' then some ([], rest)
    else if c = '\\' then
      match rest with
      | [] => none
      | e :: rest2 =>
        if e = 'u' then
          match rest2 with
          | h1 :: h2 :: h3 :: h4 :: rest3 =>
            match hexVal h1, hexVal h2, hexVal h3, hexVal h4 with
            | some a, some b, some c2, some d =>
              match parseStrAux rest3 with
              | some (s, r) =>
                some (Char.ofNat (((a * 16 + b) * 16 + c2) * 16 + d) :: s, r)
              | none => none
            | _, _, _, _ => none
          | _ => none
        else if e = '"' then
          match parseStrAux rest2 with
          | some (s, r) => some ('"' :: s, r)
          | none => none
        else if e = '\\' then
          match parseStrAux rest2 with
          | some (s, r) => some ('\\' :: s, r)
          | none => none
        else if e = '/' then
          match parseStrAux rest2 with
          | some (s, r) => some ('/' :: s, r)
          | none => none
        else if e = 'n' then
          match parseStrAux rest2 with
          | some (s, r) => some ('\n' :: s, r)
          | none => none
        else if e = 't' then
          match parseStrAux rest2 with
          | some (s, r) => some ('\t' :: s, r)
          | none => none
        else if e = 'r' then
          match parseStrAux rest2 with
          | some (s, r) => some ('\r' :: s, r)
          | none => none
        else if e = 'b' then
          match parseStrAux rest2 with
          | some (s, r) => some ('\x08' :: s, r)
          | none => none
        else if e = 'f' then
          match parseStrAux rest2 with
          | some (s, r) => some ('\x0c' :: s, r)
          | none => none
        else none
    else
      match parseStrAux rest with
      | some (s, r) => some (c :: s, r)
      | none => none

mutual

/-- Fuel-based recursive-descent parser for the canonical (whitespace
free) JSON grammar emitted by `jsonStringify` — the fragment of
`JSON.parse` exercised by the cache module's read-back path. -/
def parseValue : Nat → List Char → Option (JsonValue × List Char)
  | 0, _ => none
  | fuel + 1, input =>
    match input with
    | [] => none
    | c :: rest =>
      if c = 'n' then
        match rest with
        | 'u' :: 'l' :: 'l' :: r => some (.jnull, r)
        | _ => none
      else if c = 't' then
        match rest with
        | 'r' :: 'u' :: 'e' :: r => some (.jbool true, r)
        | _ => none
      else if c = 'f' then
        match rest with
        | 'a' :: 'l' :: 's' :: 'e' :: r => some (.jbool false, r)
        | _ => none
      else if c = '"' then
        match parseStrAux rest with
        | some (s, r) => some (.jstr s, r)
        | none => none
      else if c = '-' then
        match rest with
        | d :: _ =>
          if isDigitChar d then
            let p := parseDigitsAux 0 rest
            some (.jnum (-(p.1 : Int)), p.2)
          else none
        | [] => none
      else if isDigitChar c then
        let p := parseDigitsAux 0 (c :: rest)
        some (.jnum (p.1 : Int), p.2)
      else if c = '[' then
        match rest with
        | [] => none
        | c2 :: rest2 =>
          if c2 = ']' then some (.jarr [], rest2)
          else
            match parseValue fuel rest with
            | some (v, r1) => parseItems fuel [v] r1
            | none => none
      else if c = '\x7b' then
        match rest with
        | [] => none
        | c2 :: rest2 =>
          if c2 = '\x7d' then some (.jobj [], rest2)
          else if c2 = '"' then
            match parseStrAux rest2 with
            | some (k, r3) =>
              match r3 with
              | ':' :: r4 =>
                match parseValue fuel r4 with
                | some (v, r5) => parseFields fuel [(k, v)] r5
                | none => none
              | _ => none
            | none => none
          else none
      else none

def parseItems : Nat → List JsonValue → List Char → Option (JsonValue × List Char)
  | 0, _, _ => none
  | fuel + 1, acc, input =>
    match input with
    | [] => none
    | c :: rest =>
      if c = ',' then
        match parseValue fuel rest with
        | some (v, r1) => parseItems fuel (acc ++ [v]) r1
        | none => none
      else if c = ']' then some (.jarr acc, rest)
      else none

def parseFields : Nat → List (List Char × JsonValue) → List Char →
    Option (JsonValue × List Char)
  | 0, _, _ => none
  | fuel + 1, acc, input =>
    match input with
    | [] => none
    | c :: rest =>
      if c = ',' then
        match rest with
        | '"' :: r2 =>
          match parseStrAux r2 with
          | some (k, r3) =>
            match r3 with
            | ':' :: r4 =>
              match parseValue fuel r4 with
              | some (v, r5) => parseFields fuel (acc ++ [(k, v)]) r5
              | none => none
            | _ => none
          | none => none
        | _ => none
      else if c = '\x7d' then some (.jobj acc, rest)
      else none

end

/-- Model of `JSON.parse`: parse the whole input, failing on leftovers. -/
def jsonParse (s : List Char) : Option JsonValue :=
  match parseValue (s.length + 1) s with
  | some (v, []) => some v
  | _ => none

/-- The next input character (if any) is not a decimal digit, so a
greedy number parse stops before it. -/
def noDigitStart : List Char → Prop
  | [] => True
  | c :: _ => isDigitChar c = false

lemma digitChar_isDigit {d : Nat} (h : d < 10) : isDigitChar (digitChar d) = true := by
  interval_cases d <;> decide

lemma digitChar_val {d : Nat} (h : d < 10) : digitVal (digitChar d) = d := by
  interval_cases d <;> decide

lemma natToCharsAux_acc (fuel : Nat) : ∀ n acc,
    natToCharsAux fuel n acc = natToCharsAux fuel n [] ++ acc := by
  induction fuel with
  | zero => intro n acc; rfl
  | succ fuel ih =>
    intro n acc
    by_cases h : n < 10
    · simp [natToCharsAux, h]
    · simp only [natToCharsAux, if_neg h]
      rw [ih (n / 10) (digitChar (n % 10) :: acc), ih (n / 10) [digitChar (n % 10)]]
      simp

lemma natToCharsAux_fuel : ∀ f1 f2 n acc, n < f1 → n < f2 →
    natToCharsAux f1 n acc = natToCharsAux f2 n acc := by
  intro f1
  induction f1 with
  | zero => intro f2 n acc h1 _; omega
  | succ f1 ih =>
    intro f2 n acc h1 h2
    match f2, h2 with
    | f2 + 1, h2 =>
      by_cases h : n < 10
      · simp [natToCharsAux, h]
      · simp only [natToCharsAux, if_neg h]
        exact ih f2 (n / 10) _ (by omega) (by omega)

lemma natToChars_lt10 {n : Nat} (h : n < 10) : natToChars n = [digitChar n] := by
  simp [natToChars, natToCharsAux, h]

lemma natToChars_step {n : Nat} (h : 10 ≤ n) :
    natToChars n = natToChars (n / 10) ++ [digitChar (n % 10)] := by
  unfold natToChars
  conv_lhs => rw [show n + 1 = n + 1 from rfl]
  rw [show natToCharsAux (n + 1) n [] =
      natToCharsAux n (n / 10) [digitChar (n % 10)] from by
    simp [natToCharsAux, Nat.not_lt.mpr h]]
  rw [natToCharsAux_acc, natToCharsAux_fuel n (n / 10 + 1) (n / 10) [] (by omega) (by omega)]

lemma natToChars_digits : ∀ n, ∀ c ∈ natToChars n, isDigitChar c = true := by
  intro n
  induction n using Nat.strong_induction_on with
  | _ n ih =>
    by_cases h : n < 10
    · rw [natToChars_lt10 h]
      intro c hc
      simp at hc
      subst hc
      exact digitChar_isDigit h
    · rw [natToChars_step (by omega)]
      intro c hc
      rcases List.mem_append.mp hc with hc | hc
      · exact ih (n / 10) (by omega) c hc
      · simp at hc
        subst hc
        exact digitChar_isDigit (Nat.mod_lt _ (by omega))

lemma natToChars_ne_nil (n : Nat) : natToChars n ≠ [] := by
  by_cases h : n < 10
  · rw [natToChars_lt10 h]; simp
  · rw [natToChars_step (by omega)]; simp

lemma parseDigitsAux_append : ∀ (ds : List Char), (∀ c ∈ ds, isDigitChar c = true) →
    ∀ acc rest, noDigitStart rest →
    parseDigitsAux acc (ds ++ rest) = (ds.foldl (fun a c => a * 10 + digitVal c) acc, rest) := by
  intro ds
  induction ds with
  | nil =>
    intro _ acc rest hrest
    cases rest with
    | nil => rfl
    | cons c cs =>
      simp only [noDigitStart] at hrest
      simp [parseDigitsAux, hrest]
  | cons d ds ih =>
    intro hds acc rest hrest
    have hd : isDigitChar d = true := hds d (by simp)
    simp only [List.cons_append, parseDigitsAux, hd, if_pos, List.append_eq]
    rw [ih (fun c hc => hds c (by simp [hc])) _ rest hrest]
    simp

lemma natToChars_foldl : ∀ n acc,
    (natToChars n).foldl (fun a c => a * 10 + digitVal c) acc
      = acc * 10 ^ (natToChars n).length + n := by
  intro n
  induction n using Nat.strong_induction_on with
  | _ n ih =>
    intro acc
    by_cases h : n < 10
    · rw [natToChars_lt10 h]
      simp [digitChar_val h]
    · rw [natToChars_step (by omega)]
      rw [List.foldl_append, ih (n / 10) (by omega) acc]
      simp only [List.foldl_cons, List.foldl_nil, List.length_append, List.length_cons,
        List.length_nil]
      rw [digitChar_val (Nat.mod_lt _ (by omega))]
      generalize (natToChars (n / 10)).length = k
      have hdm : n / 10 * 10 + n % 10 = n := by omega
      have expand : (acc * 10 ^ k + n / 10) * 10 + n % 10
          = acc * (10 ^ k * 10) + (n / 10 * 10 + n % 10) := by ring
      rw [expand, hdm, show k + (0 + 1) = k + 1 from by omega, pow_succ]

lemma parseDigits_natToChars (n : Nat) (rest : List Char) (hrest : noDigitStart rest) :
    parseDigitsAux 0 (natToChars n ++ rest) = (n, rest) := by
  rw [parseDigitsAux_append (natToChars n) (natToChars_digits n) 0 rest hrest,
    natToChars_foldl]
  simp

lemma hexVal_hexChar {d : Nat} (h : d < 16) : hexVal (hexChar d) = some d := by
  interval_cases d <;> decide

/-- The string-body parser inverts `JSON.stringify`'s escaping. -/
lemma parseStrAux_escape : ∀ (s : List Char) (rest : List Char),
    parseStrAux (escapeList s ++ ('"' :: rest)) = some (s, rest) := by
  intro s
  induction s with
  | nil =>
    intro rest
    rw [show escapeList [] ++ ('"' :: rest) = '"' :: rest from rfl, parseStrAux.eq_def]
    simp
  | cons c cs ih =>
    intro rest
    simp only [escapeList, List.append_assoc]
    by_cases hq : c = '"'
    · subst hq
      rw [show escapeChar '"' = ['\\', '"'] from rfl]
      simp only [List.cons_append, List.nil_append]
      rw [parseStrAux.eq_def]
      simp [ih rest]
    · by_cases hb : c = '\\'
      · subst hb
        rw [show escapeChar '\\' = ['\\', '\\'] from by rfl]
        simp only [List.cons_append, List.nil_append]
        rw [parseStrAux.eq_def]
        simp [ih rest]
      · by_cases hctl : c.toNat < 32
        · rw [show escapeChar c
              = ['\\', 'u', '0', '0', hexChar (c.toNat / 16), hexChar (c.toNat % 16)] from by
            simp [escapeChar, hq, hb, hctl]]
          simp only [List.cons_append, List.nil_append]
          rw [parseStrAux.eq_def]
          have hhi : hexVal (hexChar (c.toNat / 16)) = some (c.toNat / 16) :=
            hexVal_hexChar (by omega)
          have hlo : hexVal (hexChar (c.toNat % 16)) = some (c.toNat % 16) :=
            hexVal_hexChar (Nat.mod_lt _ (by omega))
          have h0 : hexVal '0' = some 0 := by decide
          simp [h0, hhi, hlo, ih rest]
          rw [show (c.toNat / 16) * 16 + c.toNat % 16 = c.toNat from by omega,
            Char.ofNat_toNat]
        · rw [show escapeChar c = [c] from by simp [escapeChar, hq, hb, hctl]]
          simp only [List.cons_append, List.nil_append]
          rw [parseStrAux.eq_def]
          simp [hq, hb, ih rest]

lemma natToChars_head_digit (n : Nat) :
    ∃ d ds, natToChars n = d :: ds ∧ isDigitChar d = true := by
  cases h : natToChars n with
  | nil => exact absurd h (natToChars_ne_nil n)
  | cons d ds =>
    refine ⟨d, ds, rfl, natToChars_digits n d ?_⟩
    rw [h]; simp

/-- Every serialized JSON value starts with one of the dispatch
characters of `parseValue`. -/
lemma stringify_head_cases (v : JsonValue) :
    ∃ c cs, jsonStringify v = c :: cs ∧
      (c = 'n' ∨ c = 't' ∨ c = 'f' ∨ c = '"' ∨ c = '-' ∨ isDigitChar c = true
        ∨ c = '[' ∨ c = '\x7b') := by
  cases v with
  | jnull => exact ⟨'n', _, rfl, by tauto⟩
  | jbool b => cases b with
    | true => exact ⟨'t', _, rfl, by tauto⟩
    | false => exact ⟨'f', _, rfl, by tauto⟩
  | jnum m =>
    by_cases hm : m < 0
    · exact ⟨'-', natToChars m.natAbs, by simp [jsonStringify, hm], by tauto⟩
    · obtain ⟨d, ds, hds, hd⟩ := natToChars_head_digit m.toNat
      exact ⟨d, ds, by simp [jsonStringify, hm, hds], by tauto⟩
  | jstr s => exact ⟨'"', _, rfl, by tauto⟩
  | jarr xs => cases xs with
    | nil => exact ⟨'[', _, rfl, by tauto⟩
    | cons x xs => exact ⟨'[', _, rfl, by tauto⟩
  | jobj fs => cases fs with
    | nil => exact ⟨'\x7b', _, rfl, by tauto⟩
    | cons f fs => exact ⟨'\x7b', _, rfl, by tauto⟩

lemma stringify_head_ne (v : JsonValue) :
    ∃ c cs, jsonStringify v = c :: cs ∧ c ≠ ']' ∧ c ≠ '\x7d' := by
  obtain ⟨c, cs, heq, hc⟩ := stringify_head_cases v
  refine ⟨c, cs, heq, ?_, ?_⟩ <;>
    rintro rfl <;>
    rcases hc with h | h | h | h | h | h | h | h <;>
    exact absurd h (by decide)

lemma noDigitStart_items (xs : List JsonValue) (c : Char) (rest : List Char)
    (hc : isDigitChar c = false) :
    noDigitStart (stringifyItems xs ++ (c :: rest)) := by
  cases xs with
  | nil => exact hc
  | cons x xs =>
    simp only [stringifyItems, List.cons_append]
    show isDigitChar ',' = false
    decide

lemma noDigitStart_fields (fs : List (List Char × JsonValue)) (c : Char) (rest : List Char)
    (hc : isDigitChar c = false) :
    noDigitStart (stringifyFields fs ++ (c :: rest)) := by
  cases fs with
  | nil => exact hc
  | cons f fs =>
    simp only [stringifyFields, List.cons_append]
    show isDigitChar ',' = false
    decide

lemma parseItems_round (xs : List JsonValue)
    (hRV : ∀ x ∈ xs, ∀ f rest, (jsonStringify x).length < f → noDigitStart rest →
      parseValue f (jsonStringify x ++ rest) = some (x, rest)) :
    ∀ f acc rest, (stringifyItems xs).length + 1 ≤ f →
      parseItems f acc (stringifyItems xs ++ (']' :: rest)) = some (.jarr (acc ++ xs), rest) := by
  induction xs with
  | nil =>
    intro f acc rest hf
    obtain ⟨g, rfl⟩ : ∃ g, f = g + 1 := ⟨f - 1, by omega⟩
    rw [show stringifyItems [] ++ (']' :: rest) = ']' :: rest from rfl, parseItems.eq_def]
    simp
  | cons y ys ih =>
    intro f acc rest hf
    simp only [stringifyItems, List.length_cons, List.length_append] at hf
    obtain ⟨g, rfl⟩ : ∃ g, f = g + 1 := ⟨f - 1, by omega⟩
    simp only [stringifyItems, List.cons_append, List.append_assoc]
    rw [parseItems.eq_def]
    simp only [reduceIte]
    rw [hRV y (by simp) g (stringifyItems ys ++ (']' :: rest)) (by omega)
      (noDigitStart_items ys ']' rest (by decide))]
    show parseItems g (acc ++ [y]) (stringifyItems ys ++ (']' :: rest))
      = some (JsonValue.jarr (acc ++ y :: ys), rest)
    rw [ih (fun x hx => hRV x (by simp [hx])) g (acc ++ [y]) rest (by omega)]
    simp

lemma parseFields_round (fs : List (List Char × JsonValue))
    (hRV : ∀ p ∈ fs, ∀ f rest, (jsonStringify p.2).length < f → noDigitStart rest →
      parseValue f (jsonStringify p.2 ++ rest) = some (p.2, rest)) :
    ∀ f acc rest, (stringifyFields fs).length + 1 ≤ f →
      parseFields f acc (stringifyFields fs ++ ('\x7d' :: rest))
        = some (.jobj (acc ++ fs), rest) := by
  induction fs with
  | nil =>
    intro f acc rest hf
    obtain ⟨g, rfl⟩ : ∃ g, f = g + 1 := ⟨f - 1, by omega⟩
    rw [show stringifyFields [] ++ ('\x7d' :: rest) = '\x7d' :: rest from rfl,
      parseFields.eq_def]
    simp
  | cons p ps ih =>
    obtain ⟨k, w⟩ := p
    intro f acc rest hf
    simp only [stringifyFields, stringifyField, List.length_cons, List.length_append] at hf
    obtain ⟨g, rfl⟩ : ∃ g, f = g + 1 := ⟨f - 1, by omega⟩
    simp only [stringifyFields, stringifyField, List.cons_append, List.append_assoc]
    rw [parseFields.eq_def]
    simp only [reduceIte]
    rw [parseStrAux_escape k (':' :: (jsonStringify w
      ++ (stringifyFields ps ++ ('\x7d' :: rest))))]
    have hw : ∀ f rest, (jsonStringify w).length < f → noDigitStart rest →
        parseValue f (jsonStringify w ++ rest) = some (w, rest) := by
      simpa using hRV (k, w) (by simp)
    show (match parseValue g (jsonStringify w ++ (stringifyFields ps ++ ('\x7d' :: rest))) with
      | some (v, r5) => parseFields g (acc ++ [(k, v)]) r5
      | none => none) = some (JsonValue.jobj (acc ++ (k, w) :: ps), rest)
    rw [hw g (stringifyFields ps ++ ('\x7d' :: rest)) (by omega)
      (noDigitStart_fields ps '\x7d' rest (by decide))]
    show parseFields g (acc ++ [(k, w)]) (stringifyFields ps ++ ('\x7d' :: rest))
      = some (JsonValue.jobj (acc ++ (k, w) :: ps), rest)
    rw [ih (fun x hx => hRV x (by simp [hx])) g (acc ++ [(k, w)]) rest (by omega)]
    simp

lemma digit_ne_keyword {d : Char} (hd : isDigitChar d = true) :
    d ≠ 'n' ∧ d ≠ 't' ∧ d ≠ 'f' ∧ d ≠ '"' ∧ d ≠ '-' := by
  refine ⟨?_, ?_, ?_, ?_, ?_⟩ <;> rintro rfl <;> exact absurd hd (by decide)

/-- The parser inverts the serializer: parsing `jsonStringify v ++ rest`
with enough fuel yields `v` and leaves exactly `rest`, provided `rest`
does not begin with a digit (which would extend a number literal). -/
lemma parseValue_stringify : ∀ (v : JsonValue) (f : Nat) (rest : List Char),
    (jsonStringify v).length < f → noDigitStart rest →
    parseValue f (jsonStringify v ++ rest) = some (v, rest) := by
  suffices H : ∀ (n : Nat) (v : JsonValue), sizeOf v < n → ∀ (f : Nat) (rest : List Char),
      (jsonStringify v).length < f → noDigitStart rest →
      parseValue f (jsonStringify v ++ rest) = some (v, rest) by
    intro v
    exact H (sizeOf v + 1) v (by omega)
  intro n
  induction n with
  | zero => intro v hv; omega
  | succ n ih =>
    intro v hv f rest hf hrest
    cases v with
    | jnull =>
      obtain ⟨g, rfl⟩ : ∃ g, f = g + 1 := ⟨f - 1, by omega⟩
      rw [show jsonStringify .jnull = ['n', 'u', 'l', 'l'] from by simp [jsonStringify]]
      rw [List.cons_append, List.cons_append, List.cons_append, List.cons_append,
        List.nil_append]
      simp [parseValue]
    | jbool b =>
      obtain ⟨g, rfl⟩ : ∃ g, f = g + 1 := ⟨f - 1, by omega⟩
      cases b with
      | true =>
        rw [show jsonStringify (.jbool true) = ['t', 'r', 'u', 'e'] from by simp [jsonStringify]]
        rw [List.cons_append, List.cons_append, List.cons_append, List.cons_append,
          List.nil_append]
        simp [parseValue]
      | false =>
        rw [show jsonStringify (.jbool false) = ['f', 'a', 'l', 's', 'e'] from by simp [jsonStringify]]
        rw [List.cons_append, List.cons_append, List.cons_append, List.cons_append,
          List.cons_append, List.nil_append]
        simp [parseValue]
    | jnum m =>
      obtain ⟨g, rfl⟩ : ∃ g, f = g + 1 := ⟨f - 1, by omega⟩
      by_cases hm : m < 0
      · rw [show jsonStringify (.jnum m) = '-' :: natToChars m.natAbs from by
          simp [jsonStringify, hm]]
        obtain ⟨d, ds, hnd, hd⟩ := natToChars_head_digit m.natAbs
        rw [hnd, List.cons_append, List.cons_append]
        simp only [parseValue, reduceIte, hd]
        rw [show (d :: (ds ++ rest)) = natToChars m.natAbs ++ rest from by
          rw [hnd, List.cons_append]]
        rw [parseDigits_natToChars m.natAbs rest hrest]
        rw [if_neg (by decide : ¬ (('-' : Char) = 'n')),
          if_neg (by decide : ¬ (('-' : Char) = 't')),
          if_neg (by decide : ¬ (('-' : Char) = 'f')),
          if_neg (by decide : ¬ (('-' : Char) = '"'))]
        simp only [Option.some.injEq, Prod.mk.injEq, JsonValue.jnum.injEq]
        refine ⟨by omega, by trivial⟩
      · rw [show jsonStringify (.jnum m) = natToChars m.toNat from by
          simp [jsonStringify, hm]]
        obtain ⟨d, ds, hnd, hd⟩ := natToChars_head_digit m.toNat
        obtain ⟨h1, h2, h3, h4, h5⟩ := digit_ne_keyword hd
        rw [hnd, List.cons_append]
        simp only [parseValue, h1, h2, h3, h4, h5, hd, reduceIte, if_false, if_true]
        rw [show (d :: (ds ++ rest)) = natToChars m.toNat ++ rest from by
          rw [hnd, List.cons_append]]
        rw [parseDigits_natToChars m.toNat rest hrest]
        simp only [Option.some.injEq, Prod.mk.injEq, JsonValue.jnum.injEq]
        refine ⟨by omega, by trivial⟩
    | jstr s =>
      obtain ⟨g, rfl⟩ : ∃ g, f = g + 1 := ⟨f - 1, by omega⟩
      rw [show jsonStringify (.jstr s) = '"' :: (escapeList s ++ ['"']) from by simp [jsonStringify]]
      rw [List.cons_append, List.append_assoc, List.singleton_append]
      simp [parseValue, parseStrAux_escape s rest]
    | jarr xs =>
      obtain ⟨g, rfl⟩ : ∃ g, f = g + 1 := ⟨f - 1, by omega⟩
      cases xs with
      | nil =>
        rw [show jsonStringify (.jarr []) = ['[', ']'] from by simp [jsonStringify]]
        rw [List.cons_append, List.cons_append, List.nil_append]
        simp [parseValue]
        all_goals decide
      | cons x xs =>
        have hsz : ∀ y ∈ x :: xs, sizeOf y < n := by
          intro y hy
          have h1 := List.sizeOf_lt_of_mem hy
          have h2 : sizeOf (JsonValue.jarr (x :: xs)) = 1 + sizeOf (x :: xs) := by simp
          omega
        rw [show jsonStringify (.jarr (x :: xs))
            = '[' :: (jsonStringify x ++ (stringifyItems xs ++ [']'])) from by
          simp [jsonStringify]] at hf ⊢
        simp only [List.length_cons, List.length_append, List.length_nil] at hf
        rw [List.cons_append, List.append_assoc, List.append_assoc,
          List.singleton_append]
        obtain ⟨c0, cs0, hx0, hne1, hne2⟩ := stringify_head_ne x
        rw [hx0, List.cons_append]
        have hdig : isDigitChar '[' = false := by decide
        simp only [parseValue, hdig, hne1, reduceIte]
        rw [show c0 :: (cs0 ++ (stringifyItems xs ++ (']' :: rest)))
            = jsonStringify x ++ (stringifyItems xs ++ (']' :: rest)) from by
          rw [hx0]; simp]
        rw [ih x (hsz x (by simp)) g (stringifyItems xs ++ (']' :: rest)) (by omega)
          (noDigitStart_items xs ']' rest (by decide))]
        show parseItems g [x] (stringifyItems xs ++ (']' :: rest))
          = some (JsonValue.jarr (x :: xs), rest)
        rw [parseItems_round xs (fun y hy => ih y (hsz y (by simp [hy]))) g [x] rest
          (by omega)]
        simp
    | jobj fs =>
      obtain ⟨g, rfl⟩ : ∃ g, f = g + 1 := ⟨f - 1, by omega⟩
      cases fs with
      | nil =>
        rw [show jsonStringify (.jobj []) = ['\x7b', '\x7d'] from by simp [jsonStringify]]
        rw [List.cons_append, List.cons_append, List.nil_append]
        simp [parseValue]
        all_goals decide
      | cons p fs =>
        obtain ⟨k, w⟩ := p
        have hszw : sizeOf w < n := by
          have h1 : sizeOf (JsonValue.jobj ((k, w) :: fs))
              = 1 + sizeOf ((k, w) :: fs) := by simp
          have h2 : sizeOf ((k, w) :: fs) = 1 + sizeOf (k, w) + sizeOf fs := by simp
          have h3 : sizeOf (k, w) = 1 + sizeOf k + sizeOf w := by simp
          omega
        have hszp : ∀ p2 ∈ fs, sizeOf p2.2 < n := by
          intro p2 hp2
          have h1 := List.sizeOf_lt_of_mem hp2
          have h2 : sizeOf (JsonValue.jobj ((k, w) :: fs))
              = 1 + sizeOf ((k, w) :: fs) := by simp
          have h3 : sizeOf ((k, w) :: fs) = 1 + sizeOf (k, w) + sizeOf fs := by simp
          have h4 : sizeOf p2.2 < sizeOf p2 := by
            obtain ⟨a, b⟩ := p2
            have : sizeOf (a, b) = 1 + sizeOf a + sizeOf b := by simp
            simp only [this]
            have : 0 ≤ sizeOf a := by omega
            omega
          omega
        rw [show jsonStringify (.jobj ((k, w) :: fs))
            = '\x7b' :: (stringifyField (k, w) ++ (stringifyFields fs ++ ['\x7d']))
          from by simp [jsonStringify]] at hf ⊢
        rw [show stringifyField (k, w)
            = '"' :: (escapeList k ++ ('"' :: (':' :: jsonStringify w))) from by
          simp [stringifyField]] at hf ⊢
        simp only [List.length_cons, List.length_append, List.length_nil] at hf
        simp only [List.cons_append, List.append_assoc, List.nil_append,
          List.singleton_append]
        have hdig : isDigitChar '\x7b' = false := by decide
        simp only [parseValue, hdig, reduceIte]
        rw [show escapeList k ++ ('"' :: ':' :: (jsonStringify w
              ++ (stringifyFields fs ++ '\x7d' :: rest)))
            = escapeList k ++ ('"' :: (':' :: (jsonStringify w
              ++ (stringifyFields fs ++ ('\x7d' :: rest))))) from rfl]
        rw [parseStrAux_escape k (':' :: (jsonStringify w
          ++ (stringifyFields fs ++ ('\x7d' :: rest))))]
        show (match parseValue g (jsonStringify w
            ++ (stringifyFields fs ++ ('\x7d' :: rest))) with
          | some (v, r5) => parseFields g [(k, v)] r5
          | none => none) = some (JsonValue.jobj ((k, w) :: fs), rest)
        rw [ih w hszw g (stringifyFields fs ++ ('\x7d' :: rest)) (by omega)
          (noDigitStart_fields fs '\x7d' rest (by decide))]
        show parseFields g [(k, w)] (stringifyFields fs ++ ('\x7d' :: rest))
          = some (JsonValue.jobj ((k, w) :: fs), rest)
        rw [parseFields_round fs (fun p2 hp2 => ih p2.2 (hszp p2 hp2)) g [(k, w)] rest
          (by omega)]
        simp

/-- Full round trip: `JSON.parse (JSON.stringify v) = v`. -/
lemma jsonParse_stringify (v : JsonValue) : jsonParse (jsonStringify v) = some v := by
  unfold jsonParse
  have h := parseValue_stringify v ((jsonStringify v).length + 1) [] (by omega) trivial
  rw [List.append_nil] at h
  rw [h]

lemma jsonStringify_ne_nil (v : JsonValue) : jsonStringify v ≠ [] := by
  obtain ⟨c, cs, heq, _⟩ := stringify_head_cases v
  rw [heq]
  simp

/-- One stored key/value pair of the Redis backend: the serialized
string stored by `SET key value EX seconds` and its absolute expiry
time (`now + seconds` at set time).  A key behaves as absent from its
expiry time on. -/
structure CacheEntry where
  data : List Char
  expireAt : Nat
deriving Repr

/-- The Redis keyspace, newest write first; a lookup takes the most
recent write for a key (`SET` overwrite semantics). -/
abbrev Store := List (List Char × CacheEntry)

def lookupEntry (st : Store) (key : List Char) : Option CacheEntry :=
  match st with
  | [] => none
  | (k, e) :: rest => if k = key then some e else lookupEntry rest key

/-- Model of `DEFAULT_EXPIRATION` from the cache utility module (1 hour). -/
def DEFAULT_EXPIRATION : Nat := 3600

/-- Model of `getCache(key)`: reads the raw string for `key` (absent keys and
expired keys give `null`), then `data ? JSON.parse(data) : null`; a
parse error is caught and converted to `null`.  Backend errors are
modelled separately (see `withCache`); this is the error-free path. -/
def getCache (now : Nat) (st : Store) (key : List Char) : Option JsonValue :=
  match lookupEntry st key with
  | none => none
  | some e =>
    if now < e.expireAt then
      if e.data.isEmpty then none
      else jsonParse e.data
    else none

/-- Model of `setCache(key, value, expiration)`: stores
`JSON.stringify(value)` under `key` with `EX expiration`.  Redis
rejects `EX 0` (`invalid expire time`), which `setCache` catches,
returning `false` and leaving the keyspace unchanged. -/
def setCache (now : Nat) (st : Store) (key : List Char) (value : JsonValue)
    (expiration : Nat) : Bool × Store :=
  if expiration = 0 then (false, st)
  else (true, (key, ⟨jsonStringify value, now + expiration⟩) :: st)

/-- Claim C7: `set(k, v, ttl)` followed by `get(k)` strictly before the
TTL elapses deserializes to the same logical value `v`; from the
moment the TTL has elapsed the key behaves as absent (`null`). -/
theorem C7_cache_round_trip (v : JsonValue) (k : List Char) (ttl now now2 : Nat)
    (st : Store) (httl : 0 < ttl) :
    (setCache now st k v ttl).1 = true
    ∧ (now2 < now + ttl → getCache now2 (setCache now st k v ttl).2 k = some v)
    ∧ (now + ttl ≤ now2 → getCache now2 (setCache now st k v ttl).2 k = none) := by
  unfold setCache
  rw [if_neg (by omega)]
  refine ⟨rfl, ?_, ?_⟩
  · intro h
    unfold getCache lookupEntry
    rw [if_pos rfl]
    show (if now2 < now + ttl then
        if (jsonStringify v).isEmpty then none else jsonParse (jsonStringify v)
      else none) = some v
    rw [if_pos h, if_neg (by simp [List.isEmpty_iff, jsonStringify_ne_nil v]),
      jsonParse_stringify]
  · intro h
    unfold getCache lookupEntry
    rw [if_pos rfl]
    show (if now2 < now + ttl then
        if (jsonStringify v).isEmpty then none else jsonParse (jsonStringify v)
      else none) = none
    rw [if_neg (by omega)]

/-- Witness for C7 at a concrete nested value, key `user:1:a`, TTL 10,
written at time 0, read back at times 3 and 10. -/
theorem C7_cache_round_trip_witness :
    (setCache 0 [] ['u', '1'] (.jobj [(['a'], .jarr [.jnum (-42), .jstr ['h', 'i'],
        .jbool true, .jnull])]) 10).1 = true
    ∧ getCache 3 (setCache 0 [] ['u', '1'] (.jobj [(['a'], .jarr [.jnum (-42),
        .jstr ['h', 'i'], .jbool true, .jnull])]) 10).2 ['u', '1']
      = some (.jobj [(['a'], .jarr [.jnum (-42), .jstr ['h', 'i'], .jbool true, .jnull])])
    ∧ getCache 10 (setCache 0 [] ['u', '1'] (.jobj [(['a'], .jarr [.jnum (-42),
        .jstr ['h', 'i'], .jbool true, .jnull])]) 10).2 ['u', '1'] = none :=
  ⟨(C7_cache_round_trip _ ['u', '1'] 10 0 3 [] (by decide)).1,
    (C7_cache_round_trip _ ['u', '1'] 10 0 3 [] (by decide)).2.1 (by decide),
    (C7_cache_round_trip _ ['u', '1'] 10 0 10 [] (by decide)).2.2 (by decide)⟩

end CacheUtils

namespace JwtUtils

open CacheUtils

/-- The decoded (unverified) payload of a token, as produced by
`jwt.decode`: the revocation identifier `jti` and the expiry claim
`exp` (Unix seconds), either of which may be absent. -/
structure DecodedToken where
  jti : Option (List Char)
  exp : Option Nat
deriving Repr

/-- The cache key `auth:verify:${token}`. -/
def verifyKey (token : List Char) : List Char :=
  ['a', 'u', 't', 'h', ':', 'v', 'e', 'r', 'i', 'f', 'y', ':'] ++ token

/-- The cache key `auth:blacklist:${jti}`. -/
def blacklistKey (jti : List Char) : List Char :=
  ['a', 'u', 't', 'h', ':', 'b', 'l', 'a', 'c', 'k', 'l', 'i', 's', 't', ':'] ++ jti

def JWT_VERIFICATION_CACHE_TTL : Nat := 1800

/-- Model of `blacklistToken` from `jwtUtils.js`.  `decoded` is the result of
`jwt.decode(token)` (`none` when the token is undecodable).  The TTL
of the blacklist record is `Math.max(0, exp - now)` with `exp`
defaulting to `now + 24h`; the trailing `await getCache(cacheKey)` in
the source is a pure Redis `GET` of the verification-cache key and
does not change the keyspace. -/
def blacklistToken (now : Nat) (decoded : Option DecodedToken) (st : Store) :
    Bool × Store :=
  match decoded with
  | none => (false, st)
  | some d =>
    match d.jti with
    | none => (false, st)
    | some jti =>
      let exp := d.exp.getD (now + 24 * 60 * 60)
      let ttl := exp - now
      let r := setCache now st (blacklistKey jti) (.jbool true) ttl
      (true, r.2)

/-- Model of `isTokenBlacklisted` from `jwtUtils.js`: decodes without verifying,
looks the `jti` up in the blacklist store and returns the truthiness
of the stored value (`!!isBlacklisted`); fail-open `false` when the
token cannot be decoded or carries no `jti`. -/
def isTokenBlacklisted (now : Nat) (decoded : Option DecodedToken) (st : Store) : Bool :=
  match decoded with
  | none => false
  | some d =>
    match d.jti with
    | none => false
    | some jti =>
      match getCache now st (blacklistKey jti) with
      | some v => jsTruthy v
      | none => false

/-- Model of `verifyTokenWithCache` from `jwtUtils.js`.  `verifyResult` models
`jwt.verify(token, secret, …)` (`none` = verification throws, caught
into a `null` return).  A truthy cached entry under
`auth:verify:${token}` is returned without re-verifying; otherwise the
verification result is cached for `JWT_VERIFICATION_CACHE_TTL` seconds
and returned. -/
def verifyTokenWithCache (now : Nat) (token : List Char) (verifyResult : Option JsonValue)
    (st : Store) : Option JsonValue × Store :=
  match getCache now st (verifyKey token) with
  | some cached =>
    if jsTruthy cached then (some cached, st)
    else
      match verifyResult with
      | none => (none, st)
      | some decoded =>
        let r := setCache now st (verifyKey token) decoded JWT_VERIFICATION_CACHE_TTL
        (some decoded, r.2)
  | none =>
    match verifyResult with
    | none => (none, st)
    | some decoded =>
      let r := setCache now st (verifyKey token) decoded JWT_VERIFICATION_CACHE_TTL
      (some decoded, r.2)

lemma verifyKey_ne_blacklistKey (token jti : List Char) :
    verifyKey token ≠ blacklistKey jti := by
  unfold verifyKey blacklistKey
  intro h
  simp at h

/-- Claim C6: blacklisting a decodable token carrying a `jti` stores a
blacklist record whose TTL is `max(0, exp - now)` (with `exp`
defaulting to `now + 24h` when absent), i.e. whose absolute expiry is
the token's `exp`; while the record lives, `isTokenBlacklisted` is
`true`, and once the TTL has elapsed the record is gone and
`isTokenBlacklisted` returns `false`.  The hypothesis `hexp` says the
token has not yet expired at blacklisting time. -/
theorem C6_blacklist_ttl_alignment (jti : List Char) (expOpt : Option Nat)
    (now now2 : Nat) (st : Store)
    (hexp : now < expOpt.getD (now + 24 * 60 * 60)) :
    (blacklistToken now (some ⟨some jti, expOpt⟩) st).1 = true
    ∧ (blacklistToken now (some ⟨some jti, expOpt⟩) st).2
      = (blacklistKey jti, ⟨jsonStringify (.jbool true),
          now + (expOpt.getD (now + 24 * 60 * 60) - now)⟩) :: st
    ∧ (now2 < expOpt.getD (now + 24 * 60 * 60) →
        isTokenBlacklisted now2 (some ⟨some jti, expOpt⟩)
          (blacklistToken now (some ⟨some jti, expOpt⟩) st).2 = true)
    ∧ (expOpt.getD (now + 24 * 60 * 60) ≤ now2 →
        isTokenBlacklisted now2 (some ⟨some jti, expOpt⟩)
          (blacklistToken now (some ⟨some jti, expOpt⟩) st).2 = false) := by
  have hst : (blacklistToken now (some ⟨some jti, expOpt⟩) st).2
      = (blacklistKey jti, ⟨jsonStringify (.jbool true),
          now + (expOpt.getD (now + 24 * 60 * 60) - now)⟩) :: st := by
    simp only [blacklistToken, setCache]
    rw [if_neg (show ¬ (expOpt.getD (now + 24 * 60 * 60) - now = 0) from by omega)]
  have hexpire : now + (expOpt.getD (now + 24 * 60 * 60) - now)
      = expOpt.getD (now + 24 * 60 * 60) := by omega
  have hne : (jsonStringify (JsonValue.jbool true)).isEmpty = false := by
    simp [List.isEmpty_iff, jsonStringify_ne_nil (JsonValue.jbool true)]
  refine ⟨rfl, hst, ?_, ?_⟩
  · intro h
    simp only [isTokenBlacklisted, hst, getCache, lookupEntry, if_pos rfl, if_true,
      hexpire, if_pos h, hne, Bool.false_eq_true, if_false]
    rw [jsonParse_stringify]
    rfl
  · intro h
    simp only [isTokenBlacklisted, hst, getCache, lookupEntry, if_pos rfl, if_true,
      hexpire]
    rw [if_neg (show ¬ (now2 < expOpt.getD (now + 24 * 60 * 60)) from by omega)]

theorem C6_blacklist_ttl_alignment_witness :
    (blacklistToken 0 (some ⟨some ['a', 'b'], some 10⟩) []).1 = true
    ∧ isTokenBlacklisted 5 (some ⟨some ['a', 'b'], some 10⟩)
        (blacklistToken 0 (some ⟨some ['a', 'b'], some 10⟩) []).2 = true
    ∧ isTokenBlacklisted 11 (some ⟨some ['a', 'b'], some 10⟩)
        (blacklistToken 0 (some ⟨some ['a', 'b'], some 10⟩) []).2 = false :=
  ⟨(C6_blacklist_ttl_alignment ['a', 'b'] (some 10) 0 5 [] (by decide)).1,
    (C6_blacklist_ttl_alignment ['a', 'b'] (some 10) 0 5 [] (by decide)).2.2.1 (by decide),
    (C6_blacklist_ttl_alignment ['a', 'b'] (some 10) 0 11 [] (by decide)).2.2.2 (by decide)⟩

/-- Claim C5: after a successful verification of a token is cached
(at time `t0`, with TTL 1800), `blacklistToken` leaves that
verification-cache entry in place (the source reads the entry with
`getCache` instead of deleting it), so a later `verifyTokenWithCache`
still returns the cached decoded claims — without re-running
verification and without touching the store — until the entry expires
at `t0 + 1800` on its own. -/
theorem C5_blacklist_leaves_verification_cache (token jti : List Char)
    (fields : List (List Char × JsonValue)) (expOpt : Option Nat)
    (t0 t1 t2 : Nat) (st : Store) (anyVerify : Option JsonValue)
    (hmiss : getCache t0 st (verifyKey token) = none)
    (ht2 : t2 < t0 + 1800) :
    (verifyTokenWithCache t0 token (some (.jobj fields)) st).1 = some (.jobj fields)
    ∧ (verifyTokenWithCache t2 token anyVerify
        (blacklistToken t1 (some ⟨some jti, expOpt⟩)
          (verifyTokenWithCache t0 token (some (.jobj fields)) st).2).2).1
      = some (.jobj fields)
    ∧ (verifyTokenWithCache t2 token anyVerify
        (blacklistToken t1 (some ⟨some jti, expOpt⟩)
          (verifyTokenWithCache t0 token (some (.jobj fields)) st).2).2).2
      = (blacklistToken t1 (some ⟨some jti, expOpt⟩)
          (verifyTokenWithCache t0 token (some (.jobj fields)) st).2).2
    ∧ (∀ t3, t0 + 1800 ≤ t3 →
        getCache t3 (blacklistToken t1 (some ⟨some jti, expOpt⟩)
          (verifyTokenWithCache t0 token (some (.jobj fields)) st).2).2
          (verifyKey token) = none) := by
  have hst1 : (verifyTokenWithCache t0 token (some (.jobj fields)) st).2
      = (verifyKey token, ⟨jsonStringify (.jobj fields), t0 + 1800⟩) :: st := by
    simp only [verifyTokenWithCache, hmiss, setCache, JWT_VERIFICATION_CACHE_TTL]
    rw [if_neg (show ¬ (1800 = 0) from by omega)]
  have hres1 : (verifyTokenWithCache t0 token (some (.jobj fields)) st).1
      = some (.jobj fields) := by
    simp only [verifyTokenWithCache, hmiss]
  have hlook : lookupEntry
      ((blacklistToken t1 (some ⟨some jti, expOpt⟩)
        ((verifyKey token, ⟨jsonStringify (.jobj fields), t0 + 1800⟩) :: st)).2)
      (verifyKey token)
      = some ⟨jsonStringify (.jobj fields), t0 + 1800⟩ := by
    simp only [blacklistToken, setCache]
    by_cases httl : expOpt.getD (t1 + 24 * 60 * 60) - t1 = 0
    · rw [if_pos httl]
      simp [lookupEntry]
    · rw [if_neg httl]
      simp [lookupEntry, Ne.symm (verifyKey_ne_blacklistKey token jti)]
  have hne : (jsonStringify (JsonValue.jobj fields)).isEmpty = false := by
    simp [List.isEmpty_iff, jsonStringify_ne_nil (JsonValue.jobj fields)]
  have hget2 : getCache t2 (blacklistToken t1 (some ⟨some jti, expOpt⟩)
      (verifyTokenWithCache t0 token (some (.jobj fields)) st).2).2 (verifyKey token)
      = some (.jobj fields) := by
    rw [hst1]
    simp only [getCache, hlook, if_pos ht2, hne, Bool.false_eq_true, if_false]
    rw [jsonParse_stringify]
  set stB := (blacklistToken t1 (some ⟨some jti, expOpt⟩)
    (verifyTokenWithCache t0 token (some (.jobj fields)) st).2).2 with hstB
  refine ⟨hres1, ?_, ?_, ?_⟩
  · simp only [verifyTokenWithCache, hget2, jsTruthy, if_true]
  · simp only [verifyTokenWithCache, hget2, jsTruthy, if_true]
  · intro t3 ht3
    rw [hstB, hst1]
    simp only [getCache, hlook]
    rw [if_neg (show ¬ (t3 < t0 + 1800) from by omega)]

theorem C5_blacklist_leaves_verification_cache_witness :
    (verifyTokenWithCache 0 ['t', 'k']
        (some (.jobj [(['s', 'u', 'b'], .jnum 7)])) []).1
      = some (.jobj [(['s', 'u', 'b'], .jnum 7)])
    ∧ (verifyTokenWithCache 2 ['t', 'k'] none
        (blacklistToken 1 (some ⟨some ['i', 'd'], some 3600⟩)
          (verifyTokenWithCache 0 ['t', 'k']
            (some (.jobj [(['s', 'u', 'b'], .jnum 7)])) []).2).2).1
      = some (.jobj [(['s', 'u', 'b'], .jnum 7)]) := by
  have h := C5_blacklist_leaves_verification_cache ['t', 'k'] ['i', 'd']
    [(['s', 'u', 'b'], .jnum 7)] (some 3600) 0 1 2 [] none rfl (by decide)
  exact ⟨h.1, h.2.1⟩

end JwtUtils

namespace CacheUtils

/-- The environment of one `withCache(key, callback, expiration)` call:
the outcome of the cache read (`getAsync`, which may throw), the
outcome of the cache write (`setAsync`, which may throw), and the
callback, indexed by invocation number (first call, second call, …);
the callback itself is assumed to succeed. -/
structure WithCacheEnv where
  getResult : Except String (Option (List Char))
  setResult : Except String Unit
  compute : Nat → JsonValue

/-- The cache-miss path of `withCache`: run the callback, store the
result when it is truthy, and return it; if the store throws, the
`catch` block runs `return callback()`, invoking the callback a second
time. -/
def withCacheMiss (env : WithCacheEnv) : JsonValue × Nat :=
  let result := env.compute 1
  if jsTruthy result then
    match env.setResult with
    | .ok _ => (result, 1)
    | .error _ => (env.compute 2, 2)
  else (result, 1)

/-- Model of `withCache` from the cache utility module, returning the produced
value together with the number of callback invocations.  All
cache-layer errors are caught (`catch` runs `return callback()`), so
the function is total: no cache error reaches the caller. -/
def withCache (env : WithCacheEnv) : JsonValue × Nat :=
  match env.getResult with
  | .error _ => (env.compute 1, 1)
  | .ok none => withCacheMiss env
  | .ok (some data) =>
    if data.isEmpty then withCacheMiss env
    else
      match jsonParse data with
      | some v => (v, 0)
      | none => (env.compute 1, 1)

/-- Claim C2: when the cache read fails, `withCache` returns the (first)
callback invocation's value; when the read misses and the cache write
of a truthy result fails, it returns the second invocation's value.
In both cases the returned value is produced by the callback and the
cache-layer error is absorbed (the model is a total function — no
error outcome exists). -/
theorem C2_withCache_fail_soft (env : WithCacheEnv) :
    (∀ e, env.getResult = .error e → withCache env = (env.compute 1, 1))
    ∧ (env.getResult = .ok none → jsTruthy (env.compute 1) = true →
        ∀ e, env.setResult = .error e → withCache env = (env.compute 2, 2)) := by
  constructor
  · intro e he
    simp [withCache, he]
  · intro hg ht e hs
    simp [withCache, hg, withCacheMiss, ht, hs]

/-- Witness for C2: a read that throws, with callback returning its
invocation number. -/
theorem C2_withCache_fail_soft_witness :
    withCache ⟨.error "boom", .ok (), fun i => .jnum i⟩ = (.jnum 1, 1) :=
  (C2_withCache_fail_soft ⟨.error "boom", .ok (), fun i => .jnum i⟩).1 "boom" rfl

/-- Claim C10: on a cache miss whose write fails, the `catch` block
re-invokes the callback, so the callback runs exactly twice and the
second invocation's result is returned — even without concurrency the
callback is not at-most-once. -/
theorem C10_withCache_double_compute (env : WithCacheEnv)
    (hg : env.getResult = .ok none) (ht : jsTruthy (env.compute 1) = true)
    (e : String) (hs : env.setResult = .error e) :
    withCache env = (env.compute 2, 2) := by
  simp [withCache, hg, withCacheMiss, ht, hs]

/-- Witness for C10: miss, truthy computed value, failing write — the
callback runs twice. -/
theorem C10_withCache_double_compute_witness :
    withCache ⟨.ok none, .error "boom", fun i => .jnum i⟩ = (.jnum 2, 2) :=
  C10_withCache_double_compute ⟨.ok none, .error "boom", fun i => .jnum i⟩
    rfl (by rfl) "boom" rfl

end CacheUtils

namespace RedisPool

/-- One pool entry of `RedisPoolManager` (`{client, lastUsed, inUse}`);
the underlying Redis client is identified by a numeric id. -/
structure PoolItem where
  client : Nat
  lastUsed : Nat
  inUse : Bool
deriving DecidableEq, Repr

def maxPoolSize : Nat := 20
def minPoolSize : Nat := 5
def idleTimeout : Nat := 60000
def acquireTimeout : Nat := 10000

/-- Model of `pool.find(item => !item.inUse)` followed by `poolItem.inUse =
true; poolItem.lastUsed = Date.now()`: mark the first idle item
in-use. -/
def markFirstIdle (now : Nat) : List PoolItem → List PoolItem
  | [] => []
  | item :: rest =>
    if item.inUse then item :: markFirstIdle now rest
    else { item with inUse := true, lastUsed := now } :: rest

def hasIdle (pool : List PoolItem) : Bool := pool.any (fun item => !item.inUse)

/-- The synchronous part of `getClient`: take the first idle
connection, else create a new one (pushed at the end of the pool,
already in use) while below `maxPoolSize`; otherwise the caller goes
into the polling wait and the pool is unchanged. -/
def acquireStep (now newId : Nat) (pool : List PoolItem) : List PoolItem :=
  if hasIdle pool then markFirstIdle now pool
  else if pool.length < maxPoolSize then pool ++ [⟨newId, now, true⟩]
  else pool

/-- Model of `releaseClient`: mark the matching pool item idle and refresh its
timestamp; a no-op when the client is no longer in the pool. -/
def releaseClient (now cid : Nat) : List PoolItem → List PoolItem
  | [] => []
  | item :: rest =>
    if item.client = cid then { item with inUse := false, lastUsed := now } :: rest
    else item :: releaseClient now cid rest

inductive PoolOp where
  | acquire (now : Nat) (newId : Nat)
  | release (cid : Nat) (now : Nat)

def applyOp (pool : List PoolItem) : PoolOp → List PoolItem
  | .acquire now newId => acquireStep now newId pool
  | .release cid now => releaseClient now cid pool

def inUseCount (pool : List PoolItem) : Nat := (pool.filter (·.inUse)).length

/-- An item `_maintainPool` may evict: idle and unused for more than
`idleTimeout` milliseconds. -/
def isStaleIdle (now : Nat) (item : PoolItem) : Bool :=
  !item.inUse && decide (now - item.lastUsed > idleTimeout)

def countStale (now : Nat) (pool : List PoolItem) : Nat :=
  (pool.filter (isStaleIdle now)).length

/-- Remove the first `k` stale-idle items
(`idleClients.slice(0, removeCount)` then
`pool.filter(item => !clientsToRemove.includes(item))`). -/
def removeFirstStale (now : Nat) : Nat → List PoolItem → List PoolItem
  | 0, pool => pool
  | _, [] => []
  | k + 1, item :: rest =>
    if isStaleIdle now item then removeFirstStale now k rest
    else item :: removeFirstStale now (k + 1) rest

/-- The eviction phase of `_maintainPool`: when above `minPoolSize`,
remove `Math.min(idleClients.length, pool.length - minPoolSize)` of
the stale-idle connections (the first ones, as `slice(0, removeCount)`
does). -/
def maintainEvict (now : Nat) (pool : List PoolItem) : List PoolItem :=
  if pool.length > minPoolSize then
    removeFirstStale now (min (countStale now pool) (pool.length - minPoolSize)) pool
  else pool

/-- Model of `_maintainPool`: evict idle connections beyond `minPoolSize`, then
create fresh connections up to `minPoolSize` when below it (each
created client joins the pool idle on its `ready` event; absent
backend errors this succeeds). -/
def maintainPool (now nextId : Nat) (pool : List PoolItem) : List PoolItem :=
  if (maintainEvict now pool).length < minPoolSize then
    maintainEvict now pool
      ++ (List.range (minPoolSize - (maintainEvict now pool).length)).map
        (fun i => ⟨nextId + i, now, false⟩)
  else maintainEvict now pool

lemma markFirstIdle_length (now : Nat) : ∀ pool : List PoolItem,
    (markFirstIdle now pool).length = pool.length := by
  intro pool
  induction pool with
  | nil => rfl
  | cons item rest ih =>
    by_cases h : item.inUse <;> simp [markFirstIdle, h, ih]

lemma releaseClient_length (now cid : Nat) : ∀ pool : List PoolItem,
    (releaseClient now cid pool).length = pool.length := by
  intro pool
  induction pool with
  | nil => rfl
  | cons item rest ih =>
    by_cases h : item.client = cid <;> simp [releaseClient, h, ih]

lemma applyOp_length (pool : List PoolItem) (op : PoolOp) (h : pool.length ≤ maxPoolSize) :
    (applyOp pool op).length ≤ maxPoolSize := by
  cases op with
  | acquire now newId =>
    unfold applyOp acquireStep
    split_ifs with h1 h2
    · rw [markFirstIdle_length]; exact h
    · simp only [List.length_append, List.length_cons, List.length_nil]; omega
    · exact h
  | release cid now =>
    unfold applyOp
    rw [releaseClient_length]; exact h

lemma inUseCount_le_length (pool : List PoolItem) : inUseCount pool ≤ pool.length :=
  List.length_filter_le _ pool

lemma removeFirstStale_length (now : Nat) : ∀ (k : Nat) (pool : List PoolItem),
    pool.length ≤ (removeFirstStale now k pool).length + k := by
  intro k
  induction k with
  | zero => intro pool; simp [removeFirstStale]
  | succ k ih =>
    intro pool
    induction pool with
    | nil => simp [removeFirstStale]
    | cons item rest ihp =>
      by_cases h : isStaleIdle now item
      · simp only [removeFirstStale, h, if_pos]
        have := ih rest
        simp only [List.length_cons]
        omega
      · simp only [removeFirstStale, h, if_false, Bool.false_eq_true, List.length_cons]
        have := ihp
        omega

lemma removeFirstStale_mem_inUse (now : Nat) : ∀ (k : Nat) (pool : List PoolItem)
    (item : PoolItem), item ∈ pool → item.inUse = true →
    item ∈ removeFirstStale now k pool := by
  intro k
  induction k with
  | zero => intro pool item hm _; simpa [removeFirstStale] using hm
  | succ k ih =>
    intro pool
    induction pool with
    | nil => intro item hm; simp at hm
    | cons hd rest ihp =>
      intro item hm hu
      by_cases h : isStaleIdle now hd
      · simp only [removeFirstStale, h, if_pos]
        rcases List.mem_cons.mp hm with rfl | hm2
        · exfalso
          unfold isStaleIdle at h
          rw [hu] at h
          simp at h
        · exact ih rest item hm2 hu
      · simp only [removeFirstStale, h, if_false, Bool.false_eq_true]
        rcases List.mem_cons.mp hm with rfl | hm2
        · exact List.mem_cons_self _ _
        · exact List.mem_cons_of_mem _ (ihp item hm2 hu)

/-- Claim C4: (a) over every sequence of acquire/release operations
from a pool within the `maxPoolSize` bound, the number of
simultaneously in-use (borrowed) connections never exceeds
`maxPoolSize` (20); (b) one `_maintainPool` tick, absent backend
errors, leaves at least `minPoolSize` (5) live connections and evicts
only idle connections — every in-use item survives. -/
theorem C4_pool_bounds (ops : List PoolOp) (st0 : List PoolItem)
    (h0 : st0.length ≤ maxPoolSize) (now nextId : Nat) (pool : List PoolItem) :
    inUseCount (ops.foldl applyOp st0) ≤ maxPoolSize
    ∧ (ops.foldl applyOp st0).length ≤ maxPoolSize
    ∧ minPoolSize ≤ (maintainPool now nextId pool).length
    ∧ (∀ item ∈ pool, item.inUse = true → item ∈ maintainPool now nextId pool) := by
  have hfold : ∀ (ops : List PoolOp) (st : List PoolItem), st.length ≤ maxPoolSize →
      (ops.foldl applyOp st).length ≤ maxPoolSize := by
    intro ops
    induction ops with
    | nil => intro st h; exact h
    | cons op ops ih =>
      intro st h
      exact ih (applyOp st op) (applyOp_length st op h)
  have hlen := hfold ops st0 h0
  have hevict : ∀ item ∈ pool, item.inUse = true → item ∈ maintainEvict now pool := by
    intro item hm hu
    unfold maintainEvict
    split_ifs with h1
    · exact removeFirstStale_mem_inUse now _ pool item hm hu
    · exact hm
  refine ⟨le_trans (inUseCount_le_length _) hlen, hlen, ?_, ?_⟩
  · unfold maintainPool
    split_ifs with h1
    · simp only [List.length_append, List.length_map, List.length_range]
      omega
    · -- not below minPoolSize after eviction
      omega
  · intro item hm hu
    unfold maintainPool
    split_ifs with h1
    · exact List.mem_append_left _ (hevict item hm hu)
    · exact hevict item hm hu

/-- Witness for C4: two acquires and a release from the empty pool,
and one maintenance tick over a pool holding one borrowed and one
stale-idle connection. -/
theorem C4_pool_bounds_witness :
    inUseCount ([PoolOp.acquire 0 1, PoolOp.acquire 0 2, PoolOp.release 1 5].foldl
      applyOp []) ≤ maxPoolSize
    ∧ minPoolSize ≤ (maintainPool 100000 7 [⟨1, 0, true⟩, ⟨2, 0, false⟩]).length
    ∧ (∀ item ∈ [(⟨1, 0, true⟩ : PoolItem), ⟨2, 0, false⟩], item.inUse = true →
        item ∈ maintainPool 100000 7 [⟨1, 0, true⟩, ⟨2, 0, false⟩]) := by
  have h := C4_pool_bounds [PoolOp.acquire 0 1, PoolOp.acquire 0 2, PoolOp.release 1 5]
    [] (by decide) 100000 7 [⟨1, 0, true⟩, ⟨2, 0, false⟩]
  exact ⟨h.1, h.2.2.1, h.2.2.2⟩

def pollIntervalMs : Nat := 100

/-- The times (in ms after the `getClient` call) at which the 100ms
`setInterval` poll can still deliver a connection: the `setTimeout`
rejection is registered first, so at `acquireTimeout` (10000ms) the
timeout callback runs before the poll tick and the call rejects. -/
def pollTicks : List Nat :=
  (List.range (acquireTimeout / pollIntervalMs - 1)).map (fun k => (k + 1) * pollIntervalMs)

/-- The outcome of one `getClient` call. -/
inductive GetClientOutcome where
  | immediate (pool : List PoolItem)
  | waited (t : Nat)
  | timedOut (err : String) (t : Nat)
deriving Repr

/-- Model of `getClient`: prefer an idle connection; else create one while the
pool is below `maxPoolSize`; otherwise poll every 100ms (`avail t` =
"some connection is idle at poll time `t`") until a poll finds one or
the 10-second `acquireTimeout` rejects the promise with
`Timed out getting Redis connection`. -/
def getClient (now newId : Nat) (pool : List PoolItem) (avail : Nat → Bool) :
    GetClientOutcome :=
  if hasIdle pool then .immediate (markFirstIdle now pool)
  else if pool.length < maxPoolSize then .immediate (pool ++ [⟨newId, now, true⟩])
  else
    match pollTicks.find? avail with
    | some t => .waited t
    | none => .timedOut "Timed out getting Redis connection" acquireTimeout

/-- Claim C3: with every connection in-use and the pool at
`maxPoolSize` (20), `getClient` never resolves immediately; it polls
at 100ms intervals, and when no connection ever becomes available it
rejects with the pool-timeout error once `acquireTimeout` (10000ms)
elapses. -/
theorem C3_acquire_timeout (pool : List PoolItem) (now newId : Nat)
    (hall : ∀ item ∈ pool, item.inUse = true) (hfull : pool.length = maxPoolSize) :
    (∀ (avail : Nat → Bool) (st : List PoolItem),
      getClient now newId pool avail ≠ .immediate st)
    ∧ getClient now newId pool (fun _ => false)
      = .timedOut "Timed out getting Redis connection" acquireTimeout
    ∧ (∀ k, k < acquireTimeout / pollIntervalMs - 1 →
        pollTicks.get? k = some ((k + 1) * pollIntervalMs)) := by
  have hidle : hasIdle pool = false := by
    unfold hasIdle
    rw [List.any_eq_false]
    intro item hm
    rw [hall item hm]
    simp
  have hnot : ¬ pool.length < maxPoolSize := by omega
  refine ⟨?_, ?_, ?_⟩
  · intro avail st
    unfold getClient
    rw [hidle, if_neg (by simp), if_neg hnot]
    cases h : pollTicks.find? avail <;> simp
  · unfold getClient
    rw [hidle, if_neg (by simp), if_neg hnot]
    rw [show pollTicks.find? (fun _ => false) = none from by
      rw [List.find?_eq_none]; intro x _; simp]
  · intro k hk
    unfold pollTicks
    rw [List.get?_eq_getElem?, List.getElem?_map, List.getElem?_range hk]
    rfl

/-- Witness for C3: a pool of 20 borrowed connections and a schedule
on which no connection ever becomes available. -/
theorem C3_acquire_timeout_witness :
    getClient 0 21 (List.replicate 20 ⟨1, 0, true⟩) (fun _ => false)
      = .timedOut "Timed out getting Redis connection" acquireTimeout
    ∧ pollTicks.get? 0 = some 100 := by
  have h := C3_acquire_timeout (List.replicate 20 ⟨1, 0, true⟩) 0 21
    (by decide) (by decide)
  exact ⟨h.2.1, h.2.2 0 (by decide)⟩

end RedisPool

namespace CacheUtils

/-- Redis glob matching as used by `SCAN … MATCH pattern`
(the `*`, `?`, literal and backslash-escape forms of
`stringmatchlen`; character classes are not used by this codebase). -/
def globMatch : List Char → List Char → Bool
  | [], s => s.isEmpty
  | '*' :: p, s =>
    globMatch p s ||
      (match s with
       | [] => false
       | _ :: s2 => globMatch ('*' :: p) s2)
  | '?' :: p, s =>
    (match s with
     | [] => false
     | _ :: s2 => globMatch p s2)
  | '\\' :: pc :: p, s =>
    (match s with
     | [] => false
     | c :: s2 => pc = c && globMatch p s2)
  | pc :: p, s =>
    (match s with
     | [] => false
     | c :: s2 => pc = c && globMatch p s2)
termination_by p s => (p.length, s.length)

/-- One `SCAN cursor MATCH pattern` round over a stable keyspace
snapshot: the cursor walks the keyspace in pages of `count` keys
(Redis scans in server-chosen batches; `count` defaults to 10) and
returns to `0` after the last page; the returned page holds the
matching keys. -/
def scanStep (ks : List (List Char)) (pat : List Char) (count cursor : Nat) :
    Nat × List (List Char) :=
  (if cursor + count < ks.length then cursor + count else 0,
   ((ks.drop cursor).take count).filter (globMatch pat))

/-- The keys deleted by `clearCachePattern`'s do/while loop: repeat
`SCAN`, delete each page's matches, continue until the cursor returns
to `0` (fuel bounds the number of iterations). -/
def scanDeleted (ks : List (List Char)) (pat : List Char) (count : Nat) :
    Nat → Nat → List (List Char)
  | 0, _ => []
  | fuel + 1, cursor =>
    let step := scanStep ks pat count cursor
    if step.1 = 0 then step.2
    else step.2 ++ scanDeleted ks pat count fuel step.1

/-- Model of `clearCachePattern(pattern)`: cursor-scan the whole keyspace and
delete every matching key; returns the deleted keys and the remaining
keyspace. -/
def clearCachePattern (ks : List (List Char)) (pat : List Char) (count : Nat) :
    List (List Char) × List (List Char) :=
  let deleted := scanDeleted ks pat count (ks.length + 1) 0
  (deleted, ks.filter (fun k => !(deleted.contains k)))

lemma scanDeleted_spec (ks : List (List Char)) (pat : List Char) (count : Nat) :
    ∀ (fuel cursor : Nat), ks.length ≤ cursor + fuel * count →
    scanDeleted ks pat count (fuel + 1) cursor = (ks.drop cursor).filter (globMatch pat) := by
  intro fuel
  induction fuel with
  | zero =>
    intro cursor h
    simp only [Nat.zero_mul, Nat.add_zero] at h
    unfold scanDeleted scanStep
    rw [if_neg (show ¬ (cursor + count < ks.length) from by omega)]
    show ((ks.drop cursor).take count).filter (globMatch pat)
      = (ks.drop cursor).filter (globMatch pat)
    rw [List.take_of_length_le (by rw [List.length_drop]; omega)]
  | succ f ih =>
    intro cursor h
    rw [Nat.succ_mul] at h
    unfold scanDeleted scanStep
    by_cases hcur : cursor + count < ks.length
    · rw [if_pos hcur]
      have hne : ¬ (cursor + count = 0) := by
        rcases Nat.eq_zero_or_pos count with rfl | hcpos
        · simp only [Nat.mul_zero, Nat.zero_add, Nat.add_zero] at h hcur
          omega
        · omega
      show (if cursor + count = 0 then
          ((ks.drop cursor).take count).filter (globMatch pat)
        else ((ks.drop cursor).take count).filter (globMatch pat)
          ++ scanDeleted ks pat count (f + 1) (cursor + count))
        = (ks.drop cursor).filter (globMatch pat)
      rw [if_neg hne]
      rw [ih (cursor + count) (by omega)]
      rw [show ks.drop (cursor + count) = (ks.drop cursor).drop count from by
        rw [List.drop_drop, Nat.add_comm]]
      rw [← List.filter_append, List.take_append_drop]
    · rw [if_neg hcur]
      show (if (0 : Nat) = 0 then
          ((ks.drop cursor).take count).filter (globMatch pat)
        else ((ks.drop cursor).take count).filter (globMatch pat)
          ++ scanDeleted ks pat count (f + 1) 0)
        = (ks.drop cursor).filter (globMatch pat)
      rw [if_pos rfl]
      rw [List.take_of_length_le (by rw [List.length_drop]; omega)]

/-- Claim C8: `clearCachePattern` iterates cursor pages until the
cursor returns to its start value `0`, deletes exactly the keys
matching the pattern, and leaves exactly the non-matching keys in the
keyspace. -/
theorem C8_pattern_deletion (ks : List (List Char)) (pat : List Char) (count : Nat)
    (hc : 0 < count) :
    (clearCachePattern ks pat count).1 = ks.filter (globMatch pat)
    ∧ (clearCachePattern ks pat count).2 = ks.filter (fun k => !(globMatch pat k)) := by
  have hdel : scanDeleted ks pat count (ks.length + 1) 0 = ks.filter (globMatch pat) := by
    rw [scanDeleted_spec ks pat count ks.length 0 (by
      calc ks.length = ks.length * 1 := by omega
        _ ≤ ks.length * count := Nat.mul_le_mul_left _ hc
        _ = 0 + ks.length * count := by omega)]
    rw [List.drop_zero]
  constructor
  · exact hdel
  · show ks.filter (fun k => !((scanDeleted ks pat count (ks.length + 1) 0).contains k))
      = ks.filter (fun k => !(globMatch pat k))
    rw [hdel]
    apply List.filter_congr
    intro k hk
    by_cases hm : globMatch pat k = true
    · simp [List.contains, hm, hk]
    · simp only [Bool.not_eq_true] at hm
      simp [List.contains, hm, List.mem_filter]

/-- Witness for C8 at the spec's example: keys `user:1:a`, `user:1:b`,
`user:2:a` and pattern `user:1:*` (page size 10, the Redis default). -/
theorem C8_pattern_deletion_witness :
    (clearCachePattern [['u', '1', ':', 'a'], ['u', '1', ':', 'b'], ['u', '2', ':', 'a']]
        ['u', '1', ':', '*'] 10).2
      = [['u', '1', ':', 'a'], ['u', '1', ':', 'b'], ['u', '2', ':', 'a']].filter
          (fun k => !(globMatch ['u', '1', ':', '*'] k)) :=
  (C8_pattern_deletion [['u', '1', ':', 'a'], ['u', '1', ':', 'b'], ['u', '2', ':', 'a']]
    ['u', '1', ':', '*'] 10 (by decide)).2

end CacheUtils
